import Mathlib

/-!
# CUDAPathTracer: the vector math of `include/ray_tracing_math.hpp`

A shallow embedding of the `Float4` vector type, its operators and the
`poca_mus` routines.

Reading of `float`: every routine is written over an arbitrary linearly ordered
field `F` (so it runs on `ℚ` and specialises to `ℝ`).  `std::sqrt` is an explicit
argument `sqrt : F → F`; theorems that need it assume `IsSqrt sqrt`, which
`Real.sqrt` satisfies.  Rounding, infinities and NaN are not represented.
Division by zero lies outside this reading: the field returns `0` where IEEE
returns an infinity or NaN.  Where a statement reaches a zero divisor, its
comment says so.  `Schlick` is the exception: it returns an `Option`, with
`none` where its divisor is `0`.
-/

/-! ## The `MAX`, `MIN`, `ABS` macros -/

/-- Embeds `#define MAX(a, b) (a > b ? a : b)`. -/
def MAX {F : Type} [LinearOrderedField F] (a b : F) : F := if a > b then a else b

/-- Embeds `#define MIN(a, b) (a < b ? a : b)`. -/
def MIN {F : Type} [LinearOrderedField F] (a b : F) : F := if a < b then a else b

/-- Embeds `#define ABS(a) (a >= 0 ? a : -a)`. -/
def ABS {F : Type} [LinearOrderedField F] (a : F) : F := if a ≥ 0 then a else -a

/-! ## `class Float4` -/

/-- Embeds `class Float4`: four public `float` members. -/
@[ext]
structure Float4 (F : Type) where
  x : F
  y : F
  z : F
  w : F

namespace Float4

variable {F : Type} [LinearOrderedField F]

/-- Embeds `Float4()`: all components `0.f`. -/
def zero : Float4 F := ⟨0, 0, 0, 0⟩

/-- Embeds `Float4(float n)`: all components `n`. -/
def splat (n : F) : Float4 F := ⟨n, n, n, n⟩

/-- Embeds `Float4(float x, float y, float z, float w = 0.0f)` called with three arguments. -/
def mk3 (x y z : F) : Float4 F := ⟨x, y, z, 0⟩

/-- Embeds `float &operator[](int i)`, read through the returned reference:
the `switch` on `i`, and `return this->x` after it. -/
def get (v : Float4 F) (i : Int) : F :=
  if i = 0 then v.x
  else if i = 1 then v.y
  else if i = 2 then v.z
  else if i = 3 then v.w
  else v.x

/-- Embeds `float &operator[](int i)`, write through the returned reference. -/
def set (v : Float4 F) (i : Int) (a : F) : Float4 F :=
  if i = 0 then { v with x := a }
  else if i = 1 then { v with y := a }
  else if i = 2 then { v with z := a }
  else if i = 3 then { v with w := a }
  else { v with x := a }

/-- Embeds `for (int i = 0; i < 4; ++i) body`, the body acting on `*this`. -/
def loop4 (body : Int → Float4 F → Float4 F) (v : Float4 F) : Float4 F :=
  (List.range 4).foldl (fun acc i => body (i : Int) acc) v

/-- Embeds `Float4 operator-()`. -/
def neg (v : Float4 F) : Float4 F := ⟨-v.x, -v.y, -v.z, -v.w⟩

/-- Embeds `Float4 &operator+=(Float4 vec)`: the new value of `*this`. -/
def addAssign (v vec : Float4 F) : Float4 F :=
  loop4 (fun i acc => acc.set i (acc.get i + vec.get i)) v

/-- Embeds `Float4 &operator-=(Float4 vec)`: the new value of `*this`. -/
def subAssign (v vec : Float4 F) : Float4 F :=
  loop4 (fun i acc => acc.set i (acc.get i - vec.get i)) v

/-- Embeds `Float4 &operator*=(Float4 vec)`: the new value of `*this`. -/
def mulAssign (v vec : Float4 F) : Float4 F :=
  loop4 (fun i acc => acc.set i (acc.get i * vec.get i)) v

/-- Embeds `Float4 &operator/=(Float4 vec)`: the new value of `*this`;
each step is guarded by `vec[i] != 0.0f`. -/
def divAssign (v vec : Float4 F) : Float4 F :=
  loop4 (fun i acc => if vec.get i ≠ 0 then acc.set i (acc.get i / vec.get i) else acc) v

/-- Embeds `Float4 &operator*=(float n)`: the new value of `*this`. -/
def mulAssignScalar (v : Float4 F) (n : F) : Float4 F :=
  loop4 (fun i acc => acc.set i (acc.get i * n)) v

/-- Embeds `Float4 &operator/=(float n)`: the new value of `*this`;
returns at once when `n == 0.0f`. -/
def divAssignScalar (v : Float4 F) (n : F) : Float4 F :=
  if n = 0 then v else loop4 (fun i acc => acc.set i (acc.get i / n)) v

/-- Embeds `Float4 operator+(Float4 vec1, Float4 vec2)`. -/
def add (vec1 vec2 : Float4 F) : Float4 F :=
  ⟨vec1.x + vec2.x, vec1.y + vec2.y, vec1.z + vec2.z, vec1.w + vec2.w⟩

/-- Embeds `Float4 operator-(Float4 vec1, Float4 vec2)`. -/
def sub (vec1 vec2 : Float4 F) : Float4 F :=
  ⟨vec1.x - vec2.x, vec1.y - vec2.y, vec1.z - vec2.z, vec1.w - vec2.w⟩

/-- Embeds `Float4 operator*(Float4 &vec1, Float4 &vec2)`. -/
def mul (vec1 vec2 : Float4 F) : Float4 F :=
  ⟨vec1.x * vec2.x, vec1.y * vec2.y, vec1.z * vec2.z, vec1.w * vec2.w⟩

/-- Embeds `Float4 operator/(Float4 &vec1, Float4 &vec2)`: a copy of `vec1` whose
components are divided one by one, each under its own `!= 0.0f` guard. -/
def div (vec1 vec2 : Float4 F) : Float4 F :=
  let ret := vec1
  let ret := if vec2.x ≠ 0 then { ret with x := ret.x / vec2.x } else ret
  let ret := if vec2.y ≠ 0 then { ret with y := ret.y / vec2.y } else ret
  let ret := if vec2.z ≠ 0 then { ret with z := ret.z / vec2.z } else ret
  let ret := if vec2.w ≠ 0 then { ret with w := ret.w / vec2.w } else ret
  ret

/-- Embeds `Float4 operator*(float f, Float4 v)`. -/
def smul (f : F) (v : Float4 F) : Float4 F := ⟨f * v.x, f * v.y, f * v.z, f * v.w⟩

/-- Embeds `Float4 operator*(Float4 v, float f)`. -/
def muls (v : Float4 F) (f : F) : Float4 F := ⟨f * v.x, f * v.y, f * v.z, f * v.w⟩

/-- Embeds `Float4 operator/(Float4 &vec1, float f)`: the zero test is commented out in
the source, so every component is divided whatever `f` is. -/
def divScalar (vec1 : Float4 F) (f : F) : Float4 F :=
  ⟨vec1.x / f, vec1.y / f, vec1.z / f, vec1.w / f⟩

end Float4

/-! ## `namespace poca_mus` -/

namespace poca_mus

variable {F : Type} [LinearOrderedField F]

/-- What the theorems assume of `std::sqrt`: a non-negative root of every
non-negative argument. -/
def IsSqrt (sqrt : F → F) : Prop :=
  (∀ a, 0 ≤ sqrt a) ∧ (∀ a, 0 ≤ a → sqrt a * sqrt a = a)

/-- Embeds `float Length(const Float4 &vec)`. -/
def Length (sqrt : F → F) (vec : Float4 F) : F :=
  sqrt (vec.x * vec.x + vec.y * vec.y + vec.z * vec.z)

/-- Embeds `Float4 GetNormalizeVec(Float4 vec)`. -/
def GetNormalizeVec (sqrt : F → F) (vec : Float4 F) : Float4 F :=
  let len := Length sqrt vec
  vec.divScalar len

/-- Embeds `void Normalize(Float4 &vec)`: the value of `vec` on return. -/
def Normalize (sqrt : F → F) (vec : Float4 F) : Float4 F :=
  let len := Length sqrt vec
  let vec := { vec with x := vec.x / len }
  let vec := { vec with y := vec.y / len }
  let vec := { vec with z := vec.z / len }
  let vec := { vec with w := vec.w / len }
  vec

/-- Embeds `float Frac(float n)`. -/
def Frac (n : F) : F := MAX 0 (MIN 0.9999999 (ABS n))

/-- Embeds `float Dot(const Float4 &vec1, const Float4 &vec2)`. -/
def Dot (vec1 vec2 : Float4 F) : F :=
  vec1.x * vec2.x + vec1.y * vec2.y + vec1.z * vec2.z

/-- Embeds `float Cosine(Float4 &vec1, Float4 &vec2)`. -/
def Cosine (sqrt : F → F) (vec1 vec2 : Float4 F) : F :=
  Dot vec1 vec2 / Length sqrt vec1 / Length sqrt vec2

/-- Embeds `Float4 Cross(const Float4 &vec1, const Float4 &vec2)`. -/
def Cross (vec1 vec2 : Float4 F) : Float4 F :=
  Float4.mk3 (vec1.y * vec2.z - vec1.z * vec2.y) (-(vec1.x * vec2.z - vec1.z * vec2.x))
    (vec1.x * vec2.y - vec1.y * vec2.x)

/-- The vector `C` that `ToWorld` builds from the normal in its `if`/`else`;
`abs` is the absolute value of a `float`. -/
def ToWorldC (sqrt : F → F) (N : Float4 F) : Float4 F :=
  if |N.x| > |N.y| then
    let invLen := 1 / sqrt (N.x * N.x + N.z * N.z)
    Float4.mk3 (N.z * invLen) 0 (-N.x * invLen)
  else
    let invLen := 1 / sqrt (N.y * N.y + N.z * N.z)
    Float4.mk3 0 (N.z * invLen) (-N.y * invLen)

/-- Embeds `Float4 ToWorld(Float4 &a, Float4 &N)`. -/
def ToWorld (sqrt : F → F) (a N : Float4 F) : Float4 F :=
  let C := ToWorldC sqrt N
  let B := Cross C N
  ((Float4.smul a.x B).add (Float4.smul a.y C)).add (Float4.smul a.z N)

/-- Embeds `Float4 Reflect(Float4 &wi, Float4 &N)`. -/
def Reflect (sqrt : F → F) (wi N : Float4 F) : Float4 F :=
  let nor_wi := GetNormalizeVec sqrt wi
  let ndi := GetNormalizeVec sqrt N
  let ndi := ndi.mulAssignScalar (Dot wi.neg ndi)
  nor_wi.add (ndi.muls 2)

/-- The formula the specification states for `Reflect`, read with `dot` taken
against the normal as passed in:
`normalize(incident) + 2 * dot(-incident, normal) * normalize(normal)`. -/
def ReflectStated (sqrt : F → F) (incident normal : Float4 F) : Float4 F :=
  (GetNormalizeVec sqrt incident).add
    (Float4.smul (2 * Dot incident.neg normal) (GetNormalizeVec sqrt normal))

/-- Embeds `float Schlick(float cosine, float ref_idx)`.  Its one divisor,
`1 + ref_idx`, is `0` at `ref_idx = -1`: there the source gets `r0 = 2 / 0`, an
infinity, and `r0 + (1 - r0) * pow(1 - cosine, 5)` is NaN or an infinity for
every `cosine`, never a real number.  The result is `none` in that case and
`some` of the value otherwise. -/
def Schlick (cosine ref_idx : F) : Option F :=
  if 1 + ref_idx = 0 then none
  else
    let r0 := (1 - ref_idx) / (1 + ref_idx)
    let r0 := r0 * r0
    some (r0 + (1 - r0) * (1 - cosine) ^ 5)

/-- The local `discriminant` of `CanRefract`. -/
def refractDiscriminant (sqrt : F → F) (v n : Float4 F) (ni_over_nt : F) : F :=
  let uv := GetNormalizeVec sqrt v
  let dt := Dot uv n
  1 - ni_over_nt * ni_over_nt * (1 - dt * dt)

/-- The value `CanRefract` assigns to `refracted` before it calls `Normalize`. -/
def refractRaw (sqrt : F → F) (v n : Float4 F) (ni_over_nt : F) : Float4 F :=
  let uv := GetNormalizeVec sqrt v
  let dt := Dot uv n
  let discriminant := refractDiscriminant sqrt v n ni_over_nt
  (Float4.smul ni_over_nt (uv.sub (n.muls dt))).sub (n.muls (sqrt discriminant))

/-- Embeds `bool CanRefract(Float4 v, Float4 n, float ni_over_nt, Float4 &refracted)`:
the returned flag, paired with the value of `refracted` on return. -/
def CanRefract (sqrt : F → F) (v n : Float4 F) (ni_over_nt : F) (refracted : Float4 F) :
    Bool × Float4 F :=
  let discriminant := refractDiscriminant sqrt v n ni_over_nt
  if discriminant > 0 then
    let refracted := refractRaw sqrt v n ni_over_nt
    let refracted := Normalize sqrt refracted
    (true, refracted)
  else
    (false, refracted)

/-- Embeds `float Clamp(float x, float t1, float t2)`. -/
def Clamp (x t1 t2 : F) : F := MIN (MAX x t1) t2

/-- Embeds `float Smoothstep(float t1, float t2, float x)`. -/
def Smoothstep (t1 t2 x : F) : F :=
  let x := Clamp ((x - t1) / (t2 - t1)) 0 1
  x * x * (3 - 2 * x)

/-- Embeds `float Lerp(float t1, float t2, float w)`. -/
def Lerp (t1 t2 w : F) : F := t1 + (t2 - t1) * w

end poca_mus

/-! ## Component forms of the looping operators -/

section Index

variable {F : Type}

theorem Float4.loop4_eq (body : Int → Float4 F → Float4 F) (v : Float4 F) :
    Float4.loop4 body v = body 3 (body 2 (body 1 (body 0 v))) := rfl

@[simp] theorem Float4.get_zero (v : Float4 F) : v.get 0 = v.x := by simp [Float4.get]
@[simp] theorem Float4.get_one (v : Float4 F) : v.get 1 = v.y := by simp [Float4.get]
@[simp] theorem Float4.get_two (v : Float4 F) : v.get 2 = v.z := by simp [Float4.get]
@[simp] theorem Float4.get_three (v : Float4 F) : v.get 3 = v.w := by simp [Float4.get]
@[simp] theorem Float4.set_zero (v : Float4 F) (a : F) : v.set 0 a = { v with x := a } := by
  simp [Float4.set]
@[simp] theorem Float4.set_one (v : Float4 F) (a : F) : v.set 1 a = { v with y := a } := by
  simp [Float4.set]
@[simp] theorem Float4.set_two (v : Float4 F) (a : F) : v.set 2 a = { v with z := a } := by
  simp [Float4.set]
@[simp] theorem Float4.set_three (v : Float4 F) (a : F) : v.set 3 a = { v with w := a } := by
  simp [Float4.set]

end Index

namespace Float4

variable {F : Type} [LinearOrderedField F]

theorem divAssign_eq (v vec : Float4 F) :
    v.divAssign vec =
      ⟨if vec.x ≠ 0 then v.x / vec.x else v.x, if vec.y ≠ 0 then v.y / vec.y else v.y,
       if vec.z ≠ 0 then v.z / vec.z else v.z, if vec.w ≠ 0 then v.w / vec.w else v.w⟩ := by
  rw [divAssign, loop4_eq]
  simp only [get_zero, get_one, get_two, get_three, set_zero, set_one, set_two, set_three]
  split_ifs <;> rfl

theorem div_eq (v vec : Float4 F) :
    v.div vec =
      ⟨if vec.x ≠ 0 then v.x / vec.x else v.x, if vec.y ≠ 0 then v.y / vec.y else v.y,
       if vec.z ≠ 0 then v.z / vec.z else v.z, if vec.w ≠ 0 then v.w / vec.w else v.w⟩ := by
  simp only [div]
  split_ifs <;> rfl

theorem mulAssignScalar_eq (v : Float4 F) (n : F) :
    v.mulAssignScalar n = ⟨v.x * n, v.y * n, v.z * n, v.w * n⟩ := by
  rw [mulAssignScalar, loop4_eq]
  simp only [get_zero, get_one, get_two, get_three, set_zero, set_one, set_two, set_three]

theorem divAssignScalar_eq (v : Float4 F) (n : F) :
    v.divAssignScalar n = if n = 0 then v else ⟨v.x / n, v.y / n, v.z / n, v.w / n⟩ := by
  rw [divAssignScalar, loop4_eq]
  simp only [get_zero, get_one, get_two, get_three, set_zero, set_one, set_two, set_three]

end Float4

/-! ## Division operators -/

/-- C1: for all vectors `v`, `w`, both `v /= w` and `v / w` leave component `i`
equal to `v_i` when `w_i` is `0` and make it `v_i / w_i` otherwise, for each of
`x`, `y`, `z`, `w`; with `w.y = 0` the result's `y` is `v.y`. -/
theorem C1_vector_division_guard {F : Type} [LinearOrderedField F] (v w : Float4 F) :
    ((v.divAssign w).x = if w.x = 0 then v.x else v.x / w.x) ∧
    ((v.divAssign w).y = if w.y = 0 then v.y else v.y / w.y) ∧
    ((v.divAssign w).z = if w.z = 0 then v.z else v.z / w.z) ∧
    ((v.divAssign w).w = if w.w = 0 then v.w else v.w / w.w) ∧
    ((v.div w).x = if w.x = 0 then v.x else v.x / w.x) ∧
    ((v.div w).y = if w.y = 0 then v.y else v.y / w.y) ∧
    ((v.div w).z = if w.z = 0 then v.z else v.z / w.z) ∧
    ((v.div w).w = if w.w = 0 then v.w else v.w / w.w) ∧
    (v.divAssign ⟨w.x, 0, w.z, w.w⟩).y = v.y ∧
    (v.div ⟨w.x, 0, w.z, w.w⟩).y = v.y := by
  simp only [Float4.divAssign_eq, Float4.div_eq, ne_eq, ite_not, if_true, and_self]

/-- C2: the compound `v /= 0.0f` returns `v` for every `v`, but the binary
`v / 0.0f` has no zero test: it divides every component by `0`, and at
`v = (1, 2, 3, 4)` its result (four quotients with divisor `0`) is not `v`. -/
theorem C2_scalar_division_by_zero {F : Type} [LinearOrderedField F] :
    (∀ v : Float4 F, v.divAssignScalar 0 = v) ∧
    (∀ v : Float4 F, v.divScalar 0 = ⟨v.x / 0, v.y / 0, v.z / 0, v.w / 0⟩) ∧
    (⟨1, 2, 3, 4⟩ : Float4 F).divAssignScalar 0 = ⟨1, 2, 3, 4⟩ ∧
    (⟨1, 2, 3, 4⟩ : Float4 F).divScalar 0 ≠ ⟨1, 2, 3, 4⟩ := by
  refine ⟨fun v => by simp [Float4.divAssignScalar], fun v => rfl,
    by simp [Float4.divAssignScalar], ?_⟩
  intro h
  have hx := congrArg Float4.x h
  simp [Float4.divScalar] at hx

/-! ## Square roots and lengths -/

namespace poca_mus

variable {F : Type} [LinearOrderedField F]

theorem real_isSqrt : IsSqrt Real.sqrt :=
  ⟨Real.sqrt_nonneg, fun _ h => Real.mul_self_sqrt h⟩

/-- A non-negative `b` with `b * b = a` is the square root of `a`. -/
theorem IsSqrt.eq_of_mul_self {sqrt : F → F} (hs : IsSqrt sqrt) {a b : F} (hb : 0 ≤ b)
    (hab : b * b = a) : sqrt a = b := by
  have ha : 0 ≤ a := hab ▸ mul_self_nonneg b
  have h := hs.2 a ha
  exact (mul_self_inj (hs.1 a) hb).1 (h.trans hab.symm)

theorem IsSqrt.one {sqrt : F → F} (hs : IsSqrt sqrt) : sqrt 1 = 1 :=
  hs.eq_of_mul_self zero_le_one (one_mul 1)

theorem IsSqrt.zero {sqrt : F → F} (hs : IsSqrt sqrt) : sqrt 0 = 0 :=
  hs.eq_of_mul_self le_rfl (zero_mul 0)

theorem IsSqrt.pos {sqrt : F → F} (hs : IsSqrt sqrt) {a : F} (ha : 0 < a) : 0 < sqrt a := by
  rcases (hs.1 a).lt_or_eq with h | h
  · exact h
  · have := hs.2 a ha.le
    rw [← h, zero_mul] at this
    exact absurd this ha.ne

theorem sumsq_nonneg (v : Float4 F) : 0 ≤ v.x * v.x + v.y * v.y + v.z * v.z :=
  add_nonneg (add_nonneg (mul_self_nonneg _) (mul_self_nonneg _)) (mul_self_nonneg _)

theorem sumsq_pos (v : Float4 F) (hv : v.x ≠ 0 ∨ v.y ≠ 0 ∨ v.z ≠ 0) :
    0 < v.x * v.x + v.y * v.y + v.z * v.z := by
  rcases hv with h | h | h
  · have := mul_self_pos.2 h
    nlinarith [mul_self_nonneg v.y, mul_self_nonneg v.z]
  · have := mul_self_pos.2 h
    nlinarith [mul_self_nonneg v.x, mul_self_nonneg v.z]
  · have := mul_self_pos.2 h
    nlinarith [mul_self_nonneg v.x, mul_self_nonneg v.y]

theorem Length_mul_self {sqrt : F → F} (hs : IsSqrt sqrt) (v : Float4 F) :
    Length sqrt v * Length sqrt v = v.x * v.x + v.y * v.y + v.z * v.z :=
  hs.2 _ (sumsq_nonneg v)

/-- The equation `Length v = 1` says that the squares of `x`, `y`, `z` sum to `1`. -/
theorem Length_eq_one_iff {sqrt : F → F} (hs : IsSqrt sqrt) (v : Float4 F) :
    Length sqrt v = 1 ↔ v.x * v.x + v.y * v.y + v.z * v.z = 1 := by
  constructor
  · intro h
    rw [← Length_mul_self hs v, h, one_mul]
  · intro h
    rw [Length, h, hs.one]

theorem Length_pos {sqrt : F → F} (hs : IsSqrt sqrt) (v : Float4 F)
    (hv : v.x ≠ 0 ∨ v.y ≠ 0 ∨ v.z ≠ 0) : 0 < Length sqrt v :=
  hs.pos (sumsq_pos v hv)

theorem Length_ne_zero_iff {sqrt : F → F} (hs : IsSqrt sqrt) (v : Float4 F) :
    Length sqrt v ≠ 0 ↔ (v.x ≠ 0 ∨ v.y ≠ 0 ∨ v.z ≠ 0) := by
  constructor
  · intro h
    by_contra hn
    push_neg at hn
    apply h
    rw [Length, hn.1, hn.2.1, hn.2.2]
    simp [hs.zero]
  · intro hv
    exact (Length_pos hs v hv).ne'

/-- The routines `Normalize` and `GetNormalizeVec` compute the same vector. -/
theorem Normalize_eq_GetNormalizeVec (sqrt : F → F) (v : Float4 F) :
    Normalize sqrt v = GetNormalizeVec sqrt v := rfl

theorem GetNormalizeVec_eq (sqrt : F → F) (v : Float4 F) :
    GetNormalizeVec sqrt v =
      ⟨v.x / Length sqrt v, v.y / Length sqrt v, v.z / Length sqrt v, v.w / Length sqrt v⟩ :=
  rfl

/-- Dividing by a non-zero length gives a vector of length one. -/
theorem Length_GetNormalizeVec {sqrt : F → F} (hs : IsSqrt sqrt) (v : Float4 F)
    (hv : Length sqrt v ≠ 0) : Length sqrt (GetNormalizeVec sqrt v) = 1 := by
  rw [Length_eq_one_iff hs, GetNormalizeVec_eq]
  have hL := Length_mul_self hs v
  simp only
  field_simp
  linear_combination -hL

end poca_mus

/-! ## Normalisation -/

/-- C3, as stated, fails: `(0, 0, 0, 1)` is not the zero vector, yet its `Length`
(taken over `x`, `y`, `z` only) is `0`, so both `GetNormalizeVec` and `Normalize`
divide by zero, and neither result has `Length` `1`. -/
theorem C3_counterexample_only_w_nonzero :
    (⟨0, 0, 0, 1⟩ : Float4 ℝ) ≠ ⟨0, 0, 0, 0⟩ ∧
    poca_mus.Length Real.sqrt (⟨0, 0, 0, 1⟩ : Float4 ℝ) = 0 ∧
    poca_mus.Length Real.sqrt (poca_mus.GetNormalizeVec Real.sqrt (⟨0, 0, 0, 1⟩ : Float4 ℝ)) ≠ 1 ∧
    poca_mus.Length Real.sqrt (poca_mus.Normalize Real.sqrt (⟨0, 0, 0, 1⟩ : Float4 ℝ)) ≠ 1 := by
  refine ⟨?_, ?_, ?_, ?_⟩
  · intro h
    have hw := congrArg Float4.w h
    simp at hw
  · simp [poca_mus.Length]
  · simp [poca_mus.Length, poca_mus.GetNormalizeVec, Float4.divScalar]
  · simp [poca_mus.Length, poca_mus.Normalize]

/-- C3, amended: for every vector `v` whose `x`, `y`, `z` are not all zero,
`Length (GetNormalizeVec v)` is `1`, and `Length` of `v` after the in-place
`Normalize` is `1`. -/
theorem C3_normalized_has_unit_length {F : Type} [LinearOrderedField F] (sqrt : F → F)
    (hs : poca_mus.IsSqrt sqrt) (v : Float4 F) (hv : v.x ≠ 0 ∨ v.y ≠ 0 ∨ v.z ≠ 0) :
    poca_mus.Length sqrt (poca_mus.GetNormalizeVec sqrt v) = 1 ∧
    poca_mus.Length sqrt (poca_mus.Normalize sqrt v) = 1 := by
  have h0 : poca_mus.Length sqrt v ≠ 0 := (poca_mus.Length_ne_zero_iff hs v).2 hv
  exact ⟨poca_mus.Length_GetNormalizeVec hs v h0,
    (poca_mus.Normalize_eq_GetNormalizeVec sqrt v).symm ▸ poca_mus.Length_GetNormalizeVec hs v h0⟩

/-- C3, amended, at `v = (3, 4, 0, 7)` over the reals. -/
theorem C3_normalized_has_unit_length_witness :
    poca_mus.IsSqrt Real.sqrt ∧ ((3 : ℝ) ≠ 0 ∨ (4 : ℝ) ≠ 0 ∨ (0 : ℝ) ≠ 0) ∧
    poca_mus.Length Real.sqrt (poca_mus.GetNormalizeVec Real.sqrt (⟨3, 4, 0, 7⟩ : Float4 ℝ)) = 1 ∧
    poca_mus.Length Real.sqrt (poca_mus.Normalize Real.sqrt (⟨3, 4, 0, 7⟩ : Float4 ℝ)) = 1 :=
  ⟨poca_mus.real_isSqrt, Or.inl (by norm_num),
    C3_normalized_has_unit_length Real.sqrt poca_mus.real_isSqrt ⟨3, 4, 0, 7⟩
      (Or.inl (by norm_num))⟩

/-! ## Reflection -/

namespace poca_mus

variable {F : Type} [LinearOrderedField F]

/-- The components `Reflect` returns: the normalised incident vector plus twice
the normalised normal scaled by `Dot(-wi, normalised normal)`. -/
theorem Reflect_eq (sqrt : F → F) (wi N : Float4 F) :
    Reflect sqrt wi N =
      ⟨wi.x / Length sqrt wi +
          2 * (N.x / Length sqrt N * Dot wi.neg (GetNormalizeVec sqrt N)),
        wi.y / Length sqrt wi +
          2 * (N.y / Length sqrt N * Dot wi.neg (GetNormalizeVec sqrt N)),
        wi.z / Length sqrt wi +
          2 * (N.z / Length sqrt N * Dot wi.neg (GetNormalizeVec sqrt N)),
        wi.w / Length sqrt wi +
          2 * (N.w / Length sqrt N * Dot wi.neg (GetNormalizeVec sqrt N))⟩ := by
  simp only [Reflect, Float4.mulAssignScalar_eq, Float4.add, Float4.muls, GetNormalizeVec_eq]

/-- The value of `Reflect` on vectors of unit `Length`: `wi - 2 * Dot(wi, N) * N` in all four
components. -/
theorem Reflect_of_unit (sqrt : F → F) (wi N : Float4 F) (hwi : Length sqrt wi = 1)
    (hN : Length sqrt N = 1) :
    Reflect sqrt wi N =
      ⟨wi.x - 2 * Dot wi N * N.x, wi.y - 2 * Dot wi N * N.y, wi.z - 2 * Dot wi N * N.z,
        wi.w - 2 * Dot wi N * N.w⟩ := by
  rw [Reflect_eq, GetNormalizeVec_eq, hwi, hN]
  simp only [Dot, Float4.neg, div_one]
  ext <;> simp only <;> ring

end poca_mus

/-- C4, as stated, fails: for incident `(1, 0, 0)` and normal `(2, 0, 0)` the
code returns `(-1, 0, 0, 0)`, while the stated formula, with `dot` taken against
the normal as passed in, gives `(-3, 0, 0, 0)`. -/
theorem C4_counterexample_normal_of_length_two :
    poca_mus.Reflect Real.sqrt (⟨1, 0, 0, 0⟩ : Float4 ℝ) ⟨2, 0, 0, 0⟩ = ⟨-1, 0, 0, 0⟩ ∧
    poca_mus.ReflectStated Real.sqrt (⟨1, 0, 0, 0⟩ : Float4 ℝ) ⟨2, 0, 0, 0⟩ = ⟨-3, 0, 0, 0⟩ ∧
    poca_mus.Reflect Real.sqrt (⟨1, 0, 0, 0⟩ : Float4 ℝ) ⟨2, 0, 0, 0⟩ ≠
      poca_mus.ReflectStated Real.sqrt (⟨1, 0, 0, 0⟩ : Float4 ℝ) ⟨2, 0, 0, 0⟩ := by
  have h1 : poca_mus.Length Real.sqrt (⟨1, 0, 0, 0⟩ : Float4 ℝ) = 1 :=
    poca_mus.real_isSqrt.eq_of_mul_self (by norm_num) (by norm_num)
  have h2 : poca_mus.Length Real.sqrt (⟨2, 0, 0, 0⟩ : Float4 ℝ) = 2 :=
    poca_mus.real_isSqrt.eq_of_mul_self (by norm_num) (by norm_num)
  have hc : poca_mus.Reflect Real.sqrt (⟨1, 0, 0, 0⟩ : Float4 ℝ) ⟨2, 0, 0, 0⟩ = ⟨-1, 0, 0, 0⟩ := by
    rw [poca_mus.Reflect_eq, poca_mus.GetNormalizeVec_eq, h1, h2]
    simp only [poca_mus.Dot, Float4.neg]
    ext <;> norm_num
  have hf : poca_mus.ReflectStated Real.sqrt (⟨1, 0, 0, 0⟩ : Float4 ℝ) ⟨2, 0, 0, 0⟩ =
      ⟨-3, 0, 0, 0⟩ := by
    rw [poca_mus.ReflectStated, poca_mus.GetNormalizeVec_eq, poca_mus.GetNormalizeVec_eq, h1, h2]
    simp only [poca_mus.Dot, Float4.neg, Float4.add, Float4.smul]
    ext <;> norm_num
  refine ⟨hc, hf, ?_⟩
  rw [hc, hf]
  intro h
  have hx := congrArg Float4.x h
  norm_num at hx

/-- C4, amended: for every incident `i` and normal `n` with non-zero `x`, `y`, `z`
parts, `Reflect(i, n)` equals
`normalize(i) + 2 * dot(-i, normalize(n)) * normalize(n)`: `dot` is taken with
the incident as passed in and with the normalised normal. -/
theorem C4_reflect_formula {F : Type} [LinearOrderedField F] (sqrt : F → F) (i n : Float4 F)
    (_hi : i.x ≠ 0 ∨ i.y ≠ 0 ∨ i.z ≠ 0) (_hn : n.x ≠ 0 ∨ n.y ≠ 0 ∨ n.z ≠ 0) :
    poca_mus.Reflect sqrt i n =
      (poca_mus.GetNormalizeVec sqrt i).add
        (Float4.smul (2 * poca_mus.Dot i.neg (poca_mus.GetNormalizeVec sqrt n))
          (poca_mus.GetNormalizeVec sqrt n)) := by
  rw [poca_mus.Reflect_eq]
  simp only [Float4.add, Float4.smul, poca_mus.GetNormalizeVec_eq]
  ext <;> simp only <;> ring

/-- C4, amended, at incident `(1, 0, 0)` and normal `(2, 0, 0)` over the reals. -/
theorem C4_reflect_formula_witness :
    ((1 : ℝ) ≠ 0 ∨ (0 : ℝ) ≠ 0 ∨ (0 : ℝ) ≠ 0) ∧ ((2 : ℝ) ≠ 0 ∨ (0 : ℝ) ≠ 0 ∨ (0 : ℝ) ≠ 0) ∧
    poca_mus.Reflect Real.sqrt (⟨1, 0, 0, 0⟩ : Float4 ℝ) ⟨2, 0, 0, 0⟩ =
      (poca_mus.GetNormalizeVec Real.sqrt (⟨1, 0, 0, 0⟩ : Float4 ℝ)).add
        (Float4.smul
          (2 * poca_mus.Dot (⟨1, 0, 0, 0⟩ : Float4 ℝ).neg
            (poca_mus.GetNormalizeVec Real.sqrt (⟨2, 0, 0, 0⟩ : Float4 ℝ)))
          (poca_mus.GetNormalizeVec Real.sqrt (⟨2, 0, 0, 0⟩ : Float4 ℝ))) :=
  ⟨Or.inl (by norm_num), Or.inl (by norm_num),
    C4_reflect_formula Real.sqrt ⟨1, 0, 0, 0⟩ ⟨2, 0, 0, 0⟩ (Or.inl (by norm_num))
      (Or.inl (by norm_num))⟩

/-- C5: for incident `i` and normal `n` of unit `Length`, the `x`, `y`, `z` of
`Reflect(i, n)` are those of `i - 2 * Dot(i, n) * n`; hence
`Dot(Reflect(i, n), n) = -Dot(i, n)` and the part of `i` perpendicular to `n` is
unchanged.  The normalised incident `(1, -1, 0)` reflected off `(0, 1, 0)` has
positive `y`, positive `x` and zero `z`. -/
theorem C5_mirror_reflection {F : Type} [LinearOrderedField F] (sqrt : F → F)
    (hs : poca_mus.IsSqrt sqrt) (i n : Float4 F) (hi : poca_mus.Length sqrt i = 1)
    (hn : poca_mus.Length sqrt n = 1) :
    ((poca_mus.Reflect sqrt i n).x = i.x - 2 * poca_mus.Dot i n * n.x ∧
      (poca_mus.Reflect sqrt i n).y = i.y - 2 * poca_mus.Dot i n * n.y ∧
      (poca_mus.Reflect sqrt i n).z = i.z - 2 * poca_mus.Dot i n * n.z) ∧
    poca_mus.Dot (poca_mus.Reflect sqrt i n) n = -poca_mus.Dot i n ∧
    ((poca_mus.Reflect sqrt i n).x - poca_mus.Dot (poca_mus.Reflect sqrt i n) n * n.x =
        i.x - poca_mus.Dot i n * n.x ∧
      (poca_mus.Reflect sqrt i n).y - poca_mus.Dot (poca_mus.Reflect sqrt i n) n * n.y =
        i.y - poca_mus.Dot i n * n.y ∧
      (poca_mus.Reflect sqrt i n).z - poca_mus.Dot (poca_mus.Reflect sqrt i n) n * n.z =
        i.z - poca_mus.Dot i n * n.z) ∧
    (0 < (poca_mus.Reflect sqrt (poca_mus.GetNormalizeVec sqrt ⟨1, -1, 0, 0⟩) ⟨0, 1, 0, 0⟩).y ∧
      0 < (poca_mus.Reflect sqrt (poca_mus.GetNormalizeVec sqrt ⟨1, -1, 0, 0⟩) ⟨0, 1, 0, 0⟩).x ∧
      (poca_mus.Reflect sqrt (poca_mus.GetNormalizeVec sqrt ⟨1, -1, 0, 0⟩) ⟨0, 1, 0, 0⟩).z = 0) := by
  have hn2 : n.x * n.x + n.y * n.y + n.z * n.z = 1 := (poca_mus.Length_eq_one_iff hs n).1 hn
  have hdot : poca_mus.Dot (poca_mus.Reflect sqrt i n) n = -poca_mus.Dot i n := by
    rw [poca_mus.Reflect_of_unit sqrt i n hi hn]
    simp only [poca_mus.Dot]
    linear_combination (-2 * (i.x * n.x + i.y * n.y + i.z * n.z)) * hn2
  refine ⟨?_, hdot, ?_, ?_⟩
  · rw [poca_mus.Reflect_of_unit sqrt i n hi hn]
    exact ⟨rfl, rfl, rfl⟩
  · rw [hdot, poca_mus.Reflect_of_unit sqrt i n hi hn]
    refine ⟨?_, ?_, ?_⟩ <;> simp only <;> ring
  · have hL : (0 : F) < poca_mus.Length sqrt ⟨1, -1, 0, 0⟩ :=
      poca_mus.Length_pos hs _ (Or.inl one_ne_zero)
    have hu : poca_mus.Length sqrt (poca_mus.GetNormalizeVec sqrt (⟨1, -1, 0, 0⟩ : Float4 F)) = 1 :=
      poca_mus.Length_GetNormalizeVec hs _ hL.ne'
    have hN : poca_mus.Length sqrt (⟨0, 1, 0, 0⟩ : Float4 F) = 1 :=
      hs.eq_of_mul_self zero_le_one (by norm_num)
    rw [poca_mus.Reflect_of_unit sqrt _ _ hu hN, poca_mus.GetNormalizeVec_eq]
    simp only [poca_mus.Dot]
    have hinv : 0 < 1 / poca_mus.Length sqrt (⟨1, -1, 0, 0⟩ : Float4 F) := one_div_pos.2 hL
    refine ⟨?_, ?_, ?_⟩
    · have : (-1 / poca_mus.Length sqrt (⟨1, -1, 0, 0⟩ : Float4 F) -
          2 * (1 / poca_mus.Length sqrt (⟨1, -1, 0, 0⟩ : Float4 F) * 0 +
            -1 / poca_mus.Length sqrt (⟨1, -1, 0, 0⟩ : Float4 F) * 1 +
            0 / poca_mus.Length sqrt (⟨1, -1, 0, 0⟩ : Float4 F) * 0) * 1) =
          1 / poca_mus.Length sqrt (⟨1, -1, 0, 0⟩ : Float4 F) := by ring
      rw [this]
      exact hinv
    · have : (1 / poca_mus.Length sqrt (⟨1, -1, 0, 0⟩ : Float4 F) -
          2 * (1 / poca_mus.Length sqrt (⟨1, -1, 0, 0⟩ : Float4 F) * 0 +
            -1 / poca_mus.Length sqrt (⟨1, -1, 0, 0⟩ : Float4 F) * 1 +
            0 / poca_mus.Length sqrt (⟨1, -1, 0, 0⟩ : Float4 F) * 0) * 0) =
          1 / poca_mus.Length sqrt (⟨1, -1, 0, 0⟩ : Float4 F) := by ring
      rw [this]
      exact hinv
    · ring

/-- C5 at incident `(3/5, 4/5, 0)` and normal `(0, 1, 0)` over the reals. -/
theorem C5_mirror_reflection_witness :
    poca_mus.IsSqrt Real.sqrt ∧
    poca_mus.Length Real.sqrt (⟨3 / 5, 4 / 5, 0, 0⟩ : Float4 ℝ) = 1 ∧
    poca_mus.Length Real.sqrt (⟨0, 1, 0, 0⟩ : Float4 ℝ) = 1 ∧
    poca_mus.Dot (poca_mus.Reflect Real.sqrt (⟨3 / 5, 4 / 5, 0, 0⟩ : Float4 ℝ) ⟨0, 1, 0, 0⟩)
      ⟨0, 1, 0, 0⟩ = -poca_mus.Dot (⟨3 / 5, 4 / 5, 0, 0⟩ : Float4 ℝ) ⟨0, 1, 0, 0⟩ :=
  have hi : poca_mus.Length Real.sqrt (⟨3 / 5, 4 / 5, 0, 0⟩ : Float4 ℝ) = 1 :=
    poca_mus.real_isSqrt.eq_of_mul_self zero_le_one (by norm_num)
  have hn : poca_mus.Length Real.sqrt (⟨0, 1, 0, 0⟩ : Float4 ℝ) = 1 :=
    poca_mus.real_isSqrt.eq_of_mul_self zero_le_one (by norm_num)
  ⟨poca_mus.real_isSqrt, hi, hn,
    (C5_mirror_reflection Real.sqrt poca_mus.real_isSqrt ⟨3 / 5, 4 / 5, 0, 0⟩ ⟨0, 1, 0, 0⟩
      hi hn).2.1⟩

/-! ## Refraction -/

/-- C6: with `dt = Dot(GetNormalizeVec(v), n)` and `D = 1 - eta^2 * (1 - dt^2)`,
`CanRefract(v, n, eta, refracted)` returns `true` exactly when `D > 0`, and
`false` exactly when `D ≤ 0`. -/
theorem C6_canRefract_iff_discriminant_pos {F : Type} [LinearOrderedField F] (sqrt : F → F)
    (v n : Float4 F) (eta : F) (refracted : Float4 F) :
    ((poca_mus.CanRefract sqrt v n eta refracted).1 = true ↔
      1 - eta ^ 2 * (1 - (poca_mus.Dot (poca_mus.GetNormalizeVec sqrt v) n) ^ 2) > 0) ∧
    ((poca_mus.CanRefract sqrt v n eta refracted).1 = false ↔
      1 - eta ^ 2 * (1 - (poca_mus.Dot (poca_mus.GetNormalizeVec sqrt v) n) ^ 2) ≤ 0) := by
  have hD : poca_mus.refractDiscriminant sqrt v n eta =
      1 - eta ^ 2 * (1 - (poca_mus.Dot (poca_mus.GetNormalizeVec sqrt v) n) ^ 2) := by
    simp only [poca_mus.refractDiscriminant]
    ring
  rw [← hD]
  by_cases h : poca_mus.refractDiscriminant sqrt v n eta > 0
  · simp [poca_mus.CanRefract, h]
  · simp [poca_mus.CanRefract, h, not_lt.1 h]

/-- C7, as stated, fails: for `v = (1, 0, 0)`, `n = (0, 0, 0)` and `eta = 0` the
discriminant is `1`, `CanRefract` returns `true`, the vector assigned before
`Normalize` is the zero vector, so `Normalize` divides by zero, and the vector
left in `refracted` does not have `Length` `1`. -/
theorem C7_counterexample_zero_normal :
    (poca_mus.CanRefract Real.sqrt (⟨1, 0, 0, 0⟩ : Float4 ℝ) ⟨0, 0, 0, 0⟩ 0 ⟨0, 0, 0, 0⟩).1 = true ∧
    poca_mus.refractRaw Real.sqrt (⟨1, 0, 0, 0⟩ : Float4 ℝ) ⟨0, 0, 0, 0⟩ 0 = ⟨0, 0, 0, 0⟩ ∧
    poca_mus.Length Real.sqrt
      (poca_mus.CanRefract Real.sqrt (⟨1, 0, 0, 0⟩ : Float4 ℝ) ⟨0, 0, 0, 0⟩ 0 ⟨0, 0, 0, 0⟩).2 ≠ 1 := by
  have hD : poca_mus.refractDiscriminant Real.sqrt (⟨1, 0, 0, 0⟩ : Float4 ℝ) ⟨0, 0, 0, 0⟩ 0 = 1 := by
    simp [poca_mus.refractDiscriminant]
  have hraw : poca_mus.refractRaw Real.sqrt (⟨1, 0, 0, 0⟩ : Float4 ℝ) ⟨0, 0, 0, 0⟩ 0 =
      ⟨0, 0, 0, 0⟩ := by
    simp [poca_mus.refractRaw, Float4.sub, Float4.smul, Float4.muls]
  refine ⟨?_, hraw, ?_⟩
  · simp [poca_mus.CanRefract, hD]
  · simp [poca_mus.CanRefract, hD, hraw, poca_mus.Normalize, poca_mus.Length]

/-- C7, amended: whenever `CanRefract(v, n, eta, refracted)` returns `true` and
the vector `eta * (uv - n * dt) - n * sqrt(D)` it assigns before the final
`Normalize` has non-zero `Length`, the vector written to `refracted` has
`Length` exactly `1`. -/
theorem C7_refracted_has_unit_length {F : Type} [LinearOrderedField F] (sqrt : F → F)
    (hs : poca_mus.IsSqrt sqrt) (v n : Float4 F) (eta : F) (refracted : Float4 F)
    (hret : (poca_mus.CanRefract sqrt v n eta refracted).1 = true)
    (hraw : poca_mus.Length sqrt (poca_mus.refractRaw sqrt v n eta) ≠ 0) :
    poca_mus.Length sqrt (poca_mus.CanRefract sqrt v n eta refracted).2 = 1 := by
  by_cases h : poca_mus.refractDiscriminant sqrt v n eta > 0
  · simp only [poca_mus.CanRefract, h, if_true, poca_mus.Normalize_eq_GetNormalizeVec]
    exact poca_mus.Length_GetNormalizeVec hs _ hraw
  · simp [poca_mus.CanRefract, h] at hret

/-- C7, amended, at `v = (0, -1, 0)`, `n = (0, 1, 0)`, `eta = 1/2` over the reals. -/
theorem C7_refracted_has_unit_length_witness :
    poca_mus.IsSqrt Real.sqrt ∧
    (poca_mus.CanRefract Real.sqrt (⟨0, -1, 0, 0⟩ : Float4 ℝ) ⟨0, 1, 0, 0⟩ (1 / 2)
      ⟨0, 0, 0, 0⟩).1 = true ∧
    poca_mus.Length Real.sqrt
      (poca_mus.refractRaw Real.sqrt (⟨0, -1, 0, 0⟩ : Float4 ℝ) ⟨0, 1, 0, 0⟩ (1 / 2)) ≠ 0 ∧
    poca_mus.Length Real.sqrt
      (poca_mus.CanRefract Real.sqrt (⟨0, -1, 0, 0⟩ : Float4 ℝ) ⟨0, 1, 0, 0⟩ (1 / 2)
        ⟨0, 0, 0, 0⟩).2 = 1 :=
  have hD : poca_mus.refractDiscriminant Real.sqrt (⟨0, -1, 0, 0⟩ : Float4 ℝ) ⟨0, 1, 0, 0⟩
      (1 / 2) = 1 := by
    simp [poca_mus.refractDiscriminant, poca_mus.GetNormalizeVec, poca_mus.Length,
      poca_mus.Dot, Float4.divScalar]
  have hret : (poca_mus.CanRefract Real.sqrt (⟨0, -1, 0, 0⟩ : Float4 ℝ) ⟨0, 1, 0, 0⟩ (1 / 2)
      ⟨0, 0, 0, 0⟩).1 = true := by
    simp only [poca_mus.CanRefract, hD]
    simp
  have hraw : poca_mus.Length Real.sqrt
      (poca_mus.refractRaw Real.sqrt (⟨0, -1, 0, 0⟩ : Float4 ℝ) ⟨0, 1, 0, 0⟩ (1 / 2)) ≠ 0 := by
    simp only [poca_mus.refractRaw, hD]
    simp [poca_mus.GetNormalizeVec, poca_mus.Length, poca_mus.Dot,
      Float4.divScalar, Float4.sub, Float4.smul, Float4.muls]
  ⟨poca_mus.real_isSqrt, hret, hraw,
    C7_refracted_has_unit_length Real.sqrt poca_mus.real_isSqrt ⟨0, -1, 0, 0⟩ ⟨0, 1, 0, 0⟩
      (1 / 2) ⟨0, 0, 0, 0⟩ hret hraw⟩

/-! ## The frame built by `ToWorld` -/

namespace poca_mus

variable {F : Type} [LinearOrderedField F]

theorem Dot_Cross_left (a b : Float4 F) : Dot (Cross a b) a = 0 := by
  simp only [Dot, Cross, Float4.mk3]
  ring

theorem Dot_Cross_right (a b : Float4 F) : Dot (Cross a b) b = 0 := by
  simp only [Dot, Cross, Float4.mk3]
  ring

/-- Lagrange's identity for the `x`, `y`, `z` of `Cross`. -/
theorem Cross_sumsq (a b : Float4 F) :
    (Cross a b).x * (Cross a b).x + (Cross a b).y * (Cross a b).y +
        (Cross a b).z * (Cross a b).z =
      (a.x * a.x + a.y * a.y + a.z * a.z) * (b.x * b.x + b.y * b.y + b.z * b.z) -
        Dot a b * Dot a b := by
  simp only [Dot, Cross, Float4.mk3]
  ring

/-- For a normal with unit `x`, `y`, `z` part, the vector `C` of `ToWorld` has a
unit `x`, `y`, `z` part and is orthogonal to the normal, in either branch. -/
theorem ToWorldC_unit_orthogonal {sqrt : F → F} (hs : IsSqrt sqrt) (N : Float4 F)
    (hN : N.x * N.x + N.y * N.y + N.z * N.z = 1) :
    (ToWorldC sqrt N).x * (ToWorldC sqrt N).x + (ToWorldC sqrt N).y * (ToWorldC sqrt N).y +
        (ToWorldC sqrt N).z * (ToWorldC sqrt N).z = 1 ∧
      Dot (ToWorldC sqrt N) N = 0 := by
  unfold ToWorldC
  split_ifs with h
  · have hx : N.x ≠ 0 := by
      intro h0
      rw [h0, abs_zero] at h
      exact absurd h (not_lt.2 (abs_nonneg _))
    have hS : 0 < N.x * N.x + N.z * N.z := by
      have := mul_self_pos.2 hx
      nlinarith [mul_self_nonneg N.z]
    have hss := hs.2 _ hS.le
    have hs0 : sqrt (N.x * N.x + N.z * N.z) ≠ 0 := (hs.pos hS).ne'
    simp only [Float4.mk3, Dot]
    constructor
    · field_simp
      linear_combination -hss
    · ring
  · have hS : 0 < N.y * N.y + N.z * N.z := by
      by_contra hneg
      have hle : N.y * N.y + N.z * N.z ≤ 0 := not_lt.1 hneg
      have hy : N.y * N.y = 0 := by nlinarith [mul_self_nonneg N.y, mul_self_nonneg N.z]
      have hz : N.z * N.z = 0 := by nlinarith [mul_self_nonneg N.y, mul_self_nonneg N.z]
      have hy0 : N.y = 0 := mul_self_eq_zero.1 hy
      have hx0 : N.x = 0 := by
        rw [hy0, abs_zero, not_lt] at h
        exact abs_eq_zero.1 (le_antisymm h (abs_nonneg _))
      rw [hx0, hy, hz] at hN
      norm_num at hN
    have hss := hs.2 _ hS.le
    have hs0 : sqrt (N.y * N.y + N.z * N.z) ≠ 0 := (hs.pos hS).ne'
    simp only [Float4.mk3, Dot]
    constructor
    · field_simp
      linear_combination -hss
    · ring

theorem ToWorld_e1 (sqrt : F → F) (N : Float4 F) :
    ToWorld sqrt ⟨1, 0, 0, 0⟩ N = Cross (ToWorldC sqrt N) N := by
  simp only [ToWorld, Float4.add, Float4.smul, Cross, Float4.mk3]
  ext <;> simp

theorem ToWorldC_w (sqrt : F → F) (N : Float4 F) : (ToWorldC sqrt N).w = 0 := by
  unfold ToWorldC
  split_ifs <;> rfl

theorem ToWorld_e2 (sqrt : F → F) (N : Float4 F) :
    ToWorld sqrt ⟨0, 1, 0, 0⟩ N = ToWorldC sqrt N := by
  simp only [ToWorld, Float4.add, Float4.smul, Cross, Float4.mk3]
  ext <;> simp [ToWorldC_w]

theorem ToWorld_e3 (sqrt : F → F) (N : Float4 F) : ToWorld sqrt ⟨0, 0, 1, 0⟩ N = N := by
  simp only [ToWorld, Float4.add, Float4.smul]
  ext <;> simp

end poca_mus

/-- C8: for every normal `N` of unit `Length`, with `B = ToWorld((1,0,0), N)`,
`C = ToWorld((0,1,0), N)` and `ToWorld((0,0,1), N) = N`, the vectors `B`, `C`, `N`
are pairwise orthogonal under `Dot` and each has `Length` `1`, whichever branch
`|N.x| > |N.y|` or `|N.x| ≤ |N.y|` is taken. -/
theorem C8_toWorld_orthonormal_basis {F : Type} [LinearOrderedField F] (sqrt : F → F)
    (hs : poca_mus.IsSqrt sqrt) (N : Float4 F) (hN : poca_mus.Length sqrt N = 1) :
    poca_mus.ToWorld sqrt ⟨0, 0, 1, 0⟩ N = N ∧
    poca_mus.Dot (poca_mus.ToWorld sqrt ⟨1, 0, 0, 0⟩ N) (poca_mus.ToWorld sqrt ⟨0, 1, 0, 0⟩ N) = 0 ∧
    poca_mus.Dot (poca_mus.ToWorld sqrt ⟨1, 0, 0, 0⟩ N) N = 0 ∧
    poca_mus.Dot (poca_mus.ToWorld sqrt ⟨0, 1, 0, 0⟩ N) N = 0 ∧
    poca_mus.Length sqrt (poca_mus.ToWorld sqrt ⟨1, 0, 0, 0⟩ N) = 1 ∧
    poca_mus.Length sqrt (poca_mus.ToWorld sqrt ⟨0, 1, 0, 0⟩ N) = 1 ∧
    poca_mus.Length sqrt N = 1 := by
  have hN2 : N.x * N.x + N.y * N.y + N.z * N.z = 1 := (poca_mus.Length_eq_one_iff hs N).1 hN
  obtain ⟨hC, hCN⟩ := poca_mus.ToWorldC_unit_orthogonal hs N hN2
  rw [poca_mus.ToWorld_e1, poca_mus.ToWorld_e2, poca_mus.ToWorld_e3]
  refine ⟨rfl, poca_mus.Dot_Cross_left _ _, poca_mus.Dot_Cross_right _ _, hCN, ?_, ?_, hN⟩
  · rw [poca_mus.Length_eq_one_iff hs, poca_mus.Cross_sumsq, hC, hN2, hCN]
    norm_num
  · exact (poca_mus.Length_eq_one_iff hs _).2 hC

/-- C8 at `N = (1, 0, 0)`, where `|N.x| > |N.y|`, and at `N = (0, 1, 0)`, where
`|N.x| ≤ |N.y|`, over the reals. -/
theorem C8_toWorld_orthonormal_basis_witness :
    poca_mus.IsSqrt Real.sqrt ∧
    (poca_mus.Length Real.sqrt (⟨1, 0, 0, 0⟩ : Float4 ℝ) = 1 ∧
      |(1 : ℝ)| > |(0 : ℝ)| ∧
      poca_mus.Length Real.sqrt (poca_mus.ToWorld Real.sqrt ⟨1, 0, 0, 0⟩ (⟨1, 0, 0, 0⟩ : Float4 ℝ))
        = 1) ∧
    (poca_mus.Length Real.sqrt (⟨0, 1, 0, 0⟩ : Float4 ℝ) = 1 ∧
      ¬ |(0 : ℝ)| > |(1 : ℝ)| ∧
      poca_mus.Length Real.sqrt (poca_mus.ToWorld Real.sqrt ⟨1, 0, 0, 0⟩ (⟨0, 1, 0, 0⟩ : Float4 ℝ))
        = 1) :=
  have h1 : poca_mus.Length Real.sqrt (⟨1, 0, 0, 0⟩ : Float4 ℝ) = 1 :=
    poca_mus.real_isSqrt.eq_of_mul_self zero_le_one (by norm_num)
  have h2 : poca_mus.Length Real.sqrt (⟨0, 1, 0, 0⟩ : Float4 ℝ) = 1 :=
    poca_mus.real_isSqrt.eq_of_mul_self zero_le_one (by norm_num)
  ⟨poca_mus.real_isSqrt,
    ⟨h1, by norm_num,
      (C8_toWorld_orthonormal_basis Real.sqrt poca_mus.real_isSqrt ⟨1, 0, 0, 0⟩ h1).2.2.2.2.1⟩,
    ⟨h2, by norm_num,
      (C8_toWorld_orthonormal_basis Real.sqrt poca_mus.real_isSqrt ⟨0, 1, 0, 0⟩ h2).2.2.2.2.1⟩⟩

/-! ## Fresnel reflectance and the saturating fraction -/

/-- C9, as stated, fails: at the refractive index `n = -1` the divisor `1 + n` is
`0`, so `Schlick(1, -1)` is not a real number (the source returns NaN, with `r0`
an infinity) and in particular is not `((1 - n) / (1 + n))^2`. -/
theorem C9_counterexample_index_minus_one :
    (1 : ℝ) + (-1) = 0 ∧
    poca_mus.Schlick (1 : ℝ) (-1) = none ∧
    poca_mus.Schlick (1 : ℝ) (-1) ≠ some (((1 - (-1 : ℝ)) / (1 + (-1 : ℝ))) ^ 2) := by
  have h : poca_mus.Schlick (1 : ℝ) (-1) = none := by
    simp [poca_mus.Schlick]
  refine ⟨by norm_num, h, ?_⟩
  rw [h]
  exact Option.noConfusion

/-- C9, amended: for every refractive index `n` other than `-1` (that is, with
`1 + n ≠ 0`), `Schlick(1, n)` equals `r0 = ((1 - n) / (1 + n))^2`, and for every
`cosine`, `Schlick(cosine, n) = r0 + (1 - r0) * (1 - cosine)^5`. -/
theorem C9_schlick_at_cosine_one {F : Type} [LinearOrderedField F] (n : F)
    (hn : 1 + n ≠ 0) :
    poca_mus.Schlick 1 n = some (((1 - n) / (1 + n)) ^ 2) ∧
    ∀ cosine : F, poca_mus.Schlick cosine n =
      some (((1 - n) / (1 + n)) ^ 2 + (1 - ((1 - n) / (1 + n)) ^ 2) * (1 - cosine) ^ 5) := by
  constructor
  · simp only [poca_mus.Schlick, if_neg hn]
    congr 1
    ring
  · intro cosine
    simp only [poca_mus.Schlick, if_neg hn]
    congr 1
    ring

/-- C9, amended, at the refractive index `3/2`, where `r0 = 1/25`. -/
theorem C9_schlick_at_cosine_one_witness :
    (1 : ℚ) + 3 / 2 ≠ 0 ∧
    poca_mus.Schlick (1 : ℚ) (3 / 2) = some (((1 - 3 / 2) / (1 + 3 / 2)) ^ 2) ∧
    poca_mus.Schlick (1 : ℚ) (3 / 2) = some (1 / 25) :=
  ⟨by norm_num, (C9_schlick_at_cosine_one (3 / 2 : ℚ) (by norm_num)).1,
    ((C9_schlick_at_cosine_one (3 / 2 : ℚ) (by norm_num)).1).trans (by norm_num)⟩

/-- C10: for every `n`, `Frac(n)` equals `Clamp(|n|, 0, 0.9999999)`, which is
`min(|n|, 0.9999999)`; so `0 ≤ Frac(n) ≤ 0.9999999` and `Frac(-n) = Frac(n)`. -/
theorem C10_frac_saturating_abs {F : Type} [LinearOrderedField F] (n : F) :
    poca_mus.Frac n = poca_mus.Clamp |n| 0 0.9999999 ∧
    poca_mus.Frac n = min |n| 0.9999999 ∧
    0 ≤ poca_mus.Frac n ∧ poca_mus.Frac n ≤ 0.9999999 ∧
    poca_mus.Frac (-n) = poca_mus.Frac n := by
  have hc : (0 : F) < 0.9999999 := by norm_num
  have habs : ∀ a : F, ABS a = |a| := by
    intro a
    unfold ABS
    split_ifs with h
    · exact (abs_of_nonneg h).symm
    · exact (abs_of_neg (not_le.1 h)).symm
  have hfrac : ∀ a : F, poca_mus.Frac a = min |a| 0.9999999 := by
    intro a
    have h0 := abs_nonneg a
    simp only [poca_mus.Frac, habs, MAX, MIN]
    split_ifs with h1 h2 h3
    · exact absurd h2 (not_lt.2 hc.le)
    · exact (min_eq_right h1.le).symm
    · exact absurd h3 (not_lt.2 h0)
    · exact (min_eq_left (not_lt.1 h1)).symm
  refine ⟨?_, hfrac n, ?_, ?_, ?_⟩
  · have h0 := abs_nonneg n
    rw [hfrac]
    rcases h0.lt_or_eq with hpos | hzero
    · have hM : MAX |n| 0 = |n| := by simp [MAX, hpos]
      rw [poca_mus.Clamp, hM, MIN]
      split_ifs with h2
      · exact min_eq_left h2.le
      · exact min_eq_right (not_lt.1 h2)
    · have hM : MAX |n| 0 = 0 := by simp [MAX, ← hzero]
      rw [poca_mus.Clamp, hM, MIN, if_pos hc, ← hzero, min_eq_left hc.le]
  · rw [hfrac]
    exact le_min (abs_nonneg n) hc.le
  · rw [hfrac]
    exact min_le_right _ _
  · rw [hfrac, hfrac, abs_neg]

/-! ## Length, dot product and the fourth component -/

/-- C11: for every vector `v = (x, y, z, w)`, `Length(v)` is
`sqrt(x^2 + y^2 + z^2)` and `Dot(v1, v2)` is `x1*x2 + y1*y2 + z1*z2`; replacing
the `w` of any argument by another value changes neither result. -/
theorem C11_length_dot_ignore_w {F : Type} [LinearOrderedField F] (sqrt : F → F)
    (v v1 v2 : Float4 F) :
    poca_mus.Length sqrt v = sqrt (v.x ^ 2 + v.y ^ 2 + v.z ^ 2) ∧
    poca_mus.Dot v1 v2 = v1.x * v2.x + v1.y * v2.y + v1.z * v2.z ∧
    (∀ w : F, poca_mus.Length sqrt ⟨v.x, v.y, v.z, w⟩ = poca_mus.Length sqrt v) ∧
    (∀ w1 w2 : F, poca_mus.Dot ⟨v1.x, v1.y, v1.z, w1⟩ ⟨v2.x, v2.y, v2.z, w2⟩ =
      poca_mus.Dot v1 v2) := by
  refine ⟨?_, rfl, fun w => rfl, fun w1 w2 => rfl⟩
  simp only [poca_mus.Length, pow_two]

/-- C12: for every vector `v = (x, y, z, w)` with `L = Length(v)`, both
`GetNormalizeVec(v)` and the in-place `Normalize(v)` give `(x/L, y/L, z/L, w/L)`:
all four components, `w` included, are divided by the three-component length,
and the two routines agree.  When `L = 0` every quotient has divisor `0`. -/
theorem C12_normalize_divides_all_four {F : Type} [LinearOrderedField F] (sqrt : F → F)
    (v : Float4 F) :
    poca_mus.GetNormalizeVec sqrt v =
      ⟨v.x / sqrt (v.x * v.x + v.y * v.y + v.z * v.z),
        v.y / sqrt (v.x * v.x + v.y * v.y + v.z * v.z),
        v.z / sqrt (v.x * v.x + v.y * v.y + v.z * v.z),
        v.w / sqrt (v.x * v.x + v.y * v.y + v.z * v.z)⟩ ∧
    poca_mus.Normalize sqrt v =
      ⟨v.x / poca_mus.Length sqrt v, v.y / poca_mus.Length sqrt v,
        v.z / poca_mus.Length sqrt v, v.w / poca_mus.Length sqrt v⟩ ∧
    poca_mus.Normalize sqrt v = poca_mus.GetNormalizeVec sqrt v := by
  refine ⟨?_, ?_, ?_⟩
  · simp only [poca_mus.GetNormalizeVec, Float4.divScalar, poca_mus.Length]
  · simp only [poca_mus.Normalize]
  · simp only [poca_mus.Normalize, poca_mus.GetNormalizeVec, Float4.divScalar]

/-! ## Indexing -/

/-- C13: for every vector `v`, `v[0]`, `v[1]`, `v[2]`, `v[3]` refer to `x`, `y`,
`z`, `w`, and for every other index `i` (negative or greater than `3`) `v[i]`
refers to `x`, for reading and for writing alike; the operator is defined at
every integer. -/
theorem C13_index_fallback_to_x {F : Type} (v : Float4 F) (a : F) (i : Int)
    (hi : i < 0 ∨ 3 < i) :
    (v.get 0 = v.x ∧ v.get 1 = v.y ∧ v.get 2 = v.z ∧ v.get 3 = v.w) ∧
    (v.set 0 a = { v with x := a } ∧ v.set 1 a = { v with y := a } ∧
      v.set 2 a = { v with z := a } ∧ v.set 3 a = { v with w := a }) ∧
    v.get i = v.x ∧ v.set i a = { v with x := a } := by
  have h0 : i ≠ 0 := by omega
  have h1 : i ≠ 1 := by omega
  have h2 : i ≠ 2 := by omega
  have h3 : i ≠ 3 := by omega
  refine ⟨⟨v.get_zero, v.get_one, v.get_two, v.get_three⟩,
    ⟨v.set_zero a, v.set_one a, v.set_two a, v.set_three a⟩, ?_, ?_⟩
  · simp only [Float4.get, if_neg h0, if_neg h1, if_neg h2, if_neg h3]
  · simp only [Float4.set, if_neg h0, if_neg h1, if_neg h2, if_neg h3]

/-- C13 at `v = (1, 2, 3, 4)` with the out-of-range indices `7` and `-1`. -/
theorem C13_index_fallback_to_x_witness :
    ((7 : Int) < 0 ∨ (3 : Int) < 7) ∧ ((-1 : Int) < 0 ∨ (3 : Int) < -1) ∧
    ((⟨1, 2, 3, 4⟩ : Float4 ℚ).get 7 = 1 ∧ (⟨1, 2, 3, 4⟩ : Float4 ℚ).set 7 9 = ⟨9, 2, 3, 4⟩) ∧
    ((⟨1, 2, 3, 4⟩ : Float4 ℚ).get (-1) = 1 ∧
      (⟨1, 2, 3, 4⟩ : Float4 ℚ).set (-1) 9 = ⟨9, 2, 3, 4⟩) :=
  ⟨Or.inr (by decide), Or.inl (by decide),
    (C13_index_fallback_to_x (⟨1, 2, 3, 4⟩ : Float4 ℚ) 9 7 (Or.inr (by decide))).2.2,
    (C13_index_fallback_to_x (⟨1, 2, 3, 4⟩ : Float4 ℚ) 9 (-1) (Or.inl (by decide))).2.2⟩

/-! ## Clamp and Smoothstep -/

namespace poca_mus

variable {F : Type} [LinearOrderedField F]

/-- The macros in `Clamp` compute `min (max x t1) t2`. -/
theorem Clamp_eq (x t1 t2 : F) : Clamp x t1 t2 = min (max x t1) t2 := by
  simp only [Clamp, MAX, MIN]
  by_cases h1 : x > t1
  · rw [if_pos h1, max_eq_left h1.le]
    by_cases h2 : x < t2
    · rw [if_pos h2, min_eq_left h2.le]
    · rw [if_neg h2, min_eq_right (not_lt.1 h2)]
  · rw [if_neg h1, max_eq_right (not_lt.1 h1)]
    by_cases h2 : t1 < t2
    · rw [if_pos h2, min_eq_left h2.le]
    · rw [if_neg h2, min_eq_right (not_lt.1 h2)]

theorem Clamp_zero_one_mem (x : F) : 0 ≤ Clamp x 0 1 ∧ Clamp x 0 1 ≤ 1 := by
  rw [Clamp_eq]
  exact ⟨le_min (le_max_right _ _) zero_le_one, min_le_right _ _⟩

theorem Clamp_zero_one_of_nonpos {x : F} (hx : x ≤ 0) : Clamp x 0 1 = 0 := by
  rw [Clamp_eq, max_eq_right hx, min_eq_left zero_le_one]

theorem Clamp_zero_one_of_one_le {x : F} (hx : 1 ≤ x) : Clamp x 0 1 = 1 := by
  rw [Clamp_eq, max_eq_left (zero_le_one.trans hx), min_eq_right hx]

end poca_mus

/-- C14: for every `t1 < t2` and every `x`, `Smoothstep(t1, t2, x)` equals
`c * c * (3 - 2 * c)` with `c = Clamp((x - t1) / (t2 - t1), 0, 1)`; the result
lies in `[0, 1]`, is `0` for every `x ≤ t1` and is `1` for every `x ≥ t2`. -/
theorem C14_smoothstep_clamped {F : Type} [LinearOrderedField F] (t1 t2 x : F)
    (ht : t1 < t2) :
    poca_mus.Smoothstep t1 t2 x =
      poca_mus.Clamp ((x - t1) / (t2 - t1)) 0 1 * poca_mus.Clamp ((x - t1) / (t2 - t1)) 0 1 *
        (3 - 2 * poca_mus.Clamp ((x - t1) / (t2 - t1)) 0 1) ∧
    (0 ≤ poca_mus.Smoothstep t1 t2 x ∧ poca_mus.Smoothstep t1 t2 x ≤ 1) ∧
    (∀ y : F, y ≤ t1 → poca_mus.Smoothstep t1 t2 y = 0) ∧
    (∀ y : F, t2 ≤ y → poca_mus.Smoothstep t1 t2 y = 1) := by
  have hd : 0 < t2 - t1 := sub_pos.2 ht
  refine ⟨rfl, ?_, ?_, ?_⟩
  · obtain ⟨h0, h1⟩ := poca_mus.Clamp_zero_one_mem ((x - t1) / (t2 - t1))
    simp only [poca_mus.Smoothstep]
    constructor
    · have h3 : 0 ≤ 3 - 2 * poca_mus.Clamp ((x - t1) / (t2 - t1)) 0 1 := by linarith
      exact mul_nonneg (mul_nonneg h0 h0) h3
    · nlinarith [mul_nonneg (mul_nonneg (sub_nonneg.2 h1) (sub_nonneg.2 h1))
        (by linarith : (0 : F) ≤ 1 + 2 * poca_mus.Clamp ((x - t1) / (t2 - t1)) 0 1)]
  · intro y hy
    have hq : (y - t1) / (t2 - t1) ≤ 0 := div_nonpos_of_nonpos_of_nonneg (sub_nonpos.2 hy) hd.le
    simp only [poca_mus.Smoothstep, poca_mus.Clamp_zero_one_of_nonpos hq]
    ring
  · intro y hy
    have hq : 1 ≤ (y - t1) / (t2 - t1) := (one_le_div hd).2 (sub_le_sub_right hy t1)
    simp only [poca_mus.Smoothstep, poca_mus.Clamp_zero_one_of_one_le hq]
    ring

/-- C14 at `t1 = 0`, `t2 = 2`, with `x = 1` inside, `-1` below and `3` above. -/
theorem C14_smoothstep_clamped_witness :
    (0 : ℚ) < 2 ∧ (-1 : ℚ) ≤ 0 ∧ (2 : ℚ) ≤ 3 ∧
    (0 ≤ poca_mus.Smoothstep (0 : ℚ) 2 1 ∧ poca_mus.Smoothstep (0 : ℚ) 2 1 ≤ 1) ∧
    poca_mus.Smoothstep (0 : ℚ) 2 (-1) = 0 ∧ poca_mus.Smoothstep (0 : ℚ) 2 3 = 1 :=
  ⟨by norm_num, by norm_num, by norm_num,
    (C14_smoothstep_clamped (0 : ℚ) 2 1 (by norm_num)).2.1,
    (C14_smoothstep_clamped (0 : ℚ) 2 1 (by norm_num)).2.2.1 (-1) (by norm_num),
    (C14_smoothstep_clamped (0 : ℚ) 2 1 (by norm_num)).2.2.2 3 (by norm_num)⟩

/-! ## Cross product, addition and subtraction -/

/-- C15: for all vectors `v1`, `v2`, `Cross(v1, v2)` is
`(y1*z2 - z1*y2, z1*x2 - x1*z2, x1*y2 - y1*x2)` with `w = 0` whatever the `w` of
the inputs; so `Dot(Cross(v1, v2), v1) = 0` and `Dot(Cross(v1, v2), v2) = 0`. -/
theorem C15_cross_product {F : Type} [LinearOrderedField F] (v1 v2 : Float4 F) :
    poca_mus.Cross v1 v2 =
      ⟨v1.y * v2.z - v1.z * v2.y, v1.z * v2.x - v1.x * v2.z, v1.x * v2.y - v1.y * v2.x, 0⟩ ∧
    (∀ w1 w2 : F, poca_mus.Cross ⟨v1.x, v1.y, v1.z, w1⟩ ⟨v2.x, v2.y, v2.z, w2⟩ =
      poca_mus.Cross v1 v2) ∧
    poca_mus.Dot (poca_mus.Cross v1 v2) v1 = 0 ∧
    poca_mus.Dot (poca_mus.Cross v1 v2) v2 = 0 := by
  refine ⟨?_, fun w1 w2 => rfl, poca_mus.Dot_Cross_left v1 v2, poca_mus.Dot_Cross_right v1 v2⟩
  simp only [poca_mus.Cross, Float4.mk3]
  exact Float4.ext rfl (neg_sub _ _) rfl rfl

/-- C16: for all vectors `v` and `w`, `(v + w) - w` equals `v` in all four
components. -/
theorem C16_add_then_sub {F : Type} [LinearOrderedField F] (v w : Float4 F) :
    (v.add w).sub w = v ∧
    ((v.add w).sub w).x = v.x ∧ ((v.add w).sub w).y = v.y ∧
    ((v.add w).sub w).z = v.z ∧ ((v.add w).sub w).w = v.w := by
  have h : (v.add w).sub w = v := by
    simp only [Float4.add, Float4.sub]
    ext <;> simp only <;> ring
  exact ⟨h, by rw [h], by rw [h], by rw [h], by rw [h]⟩

/-! ## The refracted direction before normalisation -/

namespace poca_mus

variable {F : Type} [LinearOrderedField F]

/-- For `v` with a non-zero `x`, `y`, `z` part, a unit normal and a positive
discriminant, the squares of the `x`, `y`, `z` of the vector that `CanRefract`
assigns before `Normalize` sum to `1`. -/
theorem refractRaw_sumsq {sqrt : F → F} (hs : IsSqrt sqrt) (v n : Float4 F) (eta : F)
    (hv : v.x ≠ 0 ∨ v.y ≠ 0 ∨ v.z ≠ 0) (hn : Length sqrt n = 1)
    (hD : 0 < refractDiscriminant sqrt v n eta) :
    (refractRaw sqrt v n eta).x * (refractRaw sqrt v n eta).x +
        (refractRaw sqrt v n eta).y * (refractRaw sqrt v n eta).y +
        (refractRaw sqrt v n eta).z * (refractRaw sqrt v n eta).z = 1 := by
  have huv := (Length_eq_one_iff hs _).1
    (Length_GetNormalizeVec hs v ((Length_ne_zero_iff hs v).2 hv))
  have hn2 := (Length_eq_one_iff hs n).1 hn
  have hss := hs.2 _ hD.le
  have hDdef : refractDiscriminant sqrt v n eta =
      1 - eta * eta * (1 - Dot (GetNormalizeVec sqrt v) n * Dot (GetNormalizeVec sqrt v) n) :=
    rfl
  simp only [refractRaw, Float4.sub, Float4.smul, Float4.muls]
  generalize sqrt (refractDiscriminant sqrt v n eta) = s at hss ⊢
  rw [hDdef] at hss
  generalize GetNormalizeVec sqrt v = u at huv hss ⊢
  simp only [Dot] at hss ⊢
  linear_combination eta ^ 2 * huv +
    (eta * (u.x * n.x + u.y * n.y + u.z * n.z) + s) ^ 2 * hn2 + hss

end poca_mus

/-- C17: for every `v` with a non-zero `x`, `y`, `z` part, every `n` of unit
`Length` and every `eta` with `D = 1 - eta^2 * (1 - dt^2) > 0`, where
`dt = Dot(GetNormalizeVec(v), n)`, the vector `eta * (uv - n * dt) - n * sqrt(D)`
that `CanRefract` assigns before its final `Normalize` has `Length` `1`, and the
final `Normalize` leaves its `x`, `y`, `z` unchanged. -/
theorem C17_refracted_unit_before_normalize {F : Type} [LinearOrderedField F] (sqrt : F → F)
    (hs : poca_mus.IsSqrt sqrt) (v n : Float4 F) (eta : F) (refracted : Float4 F)
    (hv : v.x ≠ 0 ∨ v.y ≠ 0 ∨ v.z ≠ 0) (hn : poca_mus.Length sqrt n = 1)
    (hD : 1 - eta ^ 2 * (1 - (poca_mus.Dot (poca_mus.GetNormalizeVec sqrt v) n) ^ 2) > 0) :
    poca_mus.refractRaw sqrt v n eta =
      (Float4.smul eta ((poca_mus.GetNormalizeVec sqrt v).sub
          (n.muls (poca_mus.Dot (poca_mus.GetNormalizeVec sqrt v) n)))).sub
        (n.muls (sqrt (1 - eta ^ 2 *
          (1 - (poca_mus.Dot (poca_mus.GetNormalizeVec sqrt v) n) ^ 2)))) ∧
    poca_mus.Length sqrt (poca_mus.refractRaw sqrt v n eta) = 1 ∧
    (poca_mus.CanRefract sqrt v n eta refracted).2 =
      poca_mus.Normalize sqrt (poca_mus.refractRaw sqrt v n eta) ∧
    (poca_mus.Normalize sqrt (poca_mus.refractRaw sqrt v n eta)).x =
      (poca_mus.refractRaw sqrt v n eta).x ∧
    (poca_mus.Normalize sqrt (poca_mus.refractRaw sqrt v n eta)).y =
      (poca_mus.refractRaw sqrt v n eta).y ∧
    (poca_mus.Normalize sqrt (poca_mus.refractRaw sqrt v n eta)).z =
      (poca_mus.refractRaw sqrt v n eta).z := by
  have hDeq : poca_mus.refractDiscriminant sqrt v n eta =
      1 - eta ^ 2 * (1 - (poca_mus.Dot (poca_mus.GetNormalizeVec sqrt v) n) ^ 2) := by
    simp only [poca_mus.refractDiscriminant]
    ring
  have hpos : 0 < poca_mus.refractDiscriminant sqrt v n eta := hDeq ▸ hD
  have hlen : poca_mus.Length sqrt (poca_mus.refractRaw sqrt v n eta) = 1 :=
    (poca_mus.Length_eq_one_iff hs _).2 (poca_mus.refractRaw_sumsq hs v n eta hv hn hpos)
  refine ⟨?_, hlen, ?_, ?_, ?_, ?_⟩
  · rw [← hDeq]
    rfl
  · simp only [poca_mus.CanRefract, gt_iff_lt, hpos, if_true]
  · simp only [poca_mus.Normalize, hlen, div_one]
  · simp only [poca_mus.Normalize, hlen, div_one]
  · simp only [poca_mus.Normalize, hlen, div_one]

/-- C17 at `v = (0, 0, -1, 5)`, `n = (0, 0, 1, 0)`, `eta = 1/3` over the reals. -/
theorem C17_refracted_unit_before_normalize_witness :
    poca_mus.IsSqrt Real.sqrt ∧
    ((0 : ℝ) ≠ 0 ∨ (0 : ℝ) ≠ 0 ∨ (-1 : ℝ) ≠ 0) ∧
    poca_mus.Length Real.sqrt (⟨0, 0, 1, 0⟩ : Float4 ℝ) = 1 ∧
    1 - (1 / 3 : ℝ) ^ 2 * (1 - (poca_mus.Dot
      (poca_mus.GetNormalizeVec Real.sqrt (⟨0, 0, -1, 5⟩ : Float4 ℝ)) ⟨0, 0, 1, 0⟩) ^ 2) > 0 ∧
    poca_mus.Length Real.sqrt
      (poca_mus.refractRaw Real.sqrt (⟨0, 0, -1, 5⟩ : Float4 ℝ) ⟨0, 0, 1, 0⟩ (1 / 3)) = 1 :=
  have hv : (0 : ℝ) ≠ 0 ∨ (0 : ℝ) ≠ 0 ∨ (-1 : ℝ) ≠ 0 := Or.inr (Or.inr (by norm_num))
  have hn : poca_mus.Length Real.sqrt (⟨0, 0, 1, 0⟩ : Float4 ℝ) = 1 :=
    poca_mus.real_isSqrt.eq_of_mul_self zero_le_one (by norm_num)
  have hD : 1 - (1 / 3 : ℝ) ^ 2 * (1 - (poca_mus.Dot
      (poca_mus.GetNormalizeVec Real.sqrt (⟨0, 0, -1, 5⟩ : Float4 ℝ)) ⟨0, 0, 1, 0⟩) ^ 2) > 0 := by
    simp [poca_mus.GetNormalizeVec, poca_mus.Length, poca_mus.Dot, Float4.divScalar]
  ⟨poca_mus.real_isSqrt, hv, hn, hD,
    (C17_refracted_unit_before_normalize Real.sqrt poca_mus.real_isSqrt ⟨0, 0, -1, 5⟩
      ⟨0, 0, 1, 0⟩ (1 / 3) ⟨0, 0, 0, 0⟩ hv hn hD).2.1⟩

/-! ## `ToWorld` as a rotation of the local sample -/

namespace poca_mus

variable {F : Type} [LinearOrderedField F]

/-- The dot product of `ToWorld a N` with a unit normal `N` is `a.z`. -/
theorem Dot_ToWorld_normal {sqrt : F → F} (hs : IsSqrt sqrt) (a N : Float4 F)
    (hN : Length sqrt N = 1) : Dot (ToWorld sqrt a N) N = a.z := by
  have hN2 := (Length_eq_one_iff hs N).1 hN
  have hCN := (ToWorldC_unit_orthogonal hs N hN2).2
  simp only [ToWorld, Float4.add, Float4.smul, Cross, Float4.mk3]
  generalize ToWorldC sqrt N = C at hCN ⊢
  simp only [Dot] at hCN ⊢
  linear_combination a.z * hN2 + a.y * hCN

/-- The squares of the `x`, `y`, `z` of `ToWorld a N`, for a unit normal `N`, sum
to those of `a`. -/
theorem ToWorld_sumsq {sqrt : F → F} (hs : IsSqrt sqrt) (a N : Float4 F)
    (hN : Length sqrt N = 1) :
    (ToWorld sqrt a N).x * (ToWorld sqrt a N).x + (ToWorld sqrt a N).y * (ToWorld sqrt a N).y +
        (ToWorld sqrt a N).z * (ToWorld sqrt a N).z =
      a.x * a.x + a.y * a.y + a.z * a.z := by
  have hN2 := (Length_eq_one_iff hs N).1 hN
  obtain ⟨hC, hCN⟩ := ToWorldC_unit_orthogonal hs N hN2
  simp only [ToWorld, Float4.add, Float4.smul, Cross, Float4.mk3]
  generalize ToWorldC sqrt N = C at hC hCN ⊢
  simp only [Dot] at hCN
  linear_combination (a.x ^ 2 * (N.x * N.x + N.y * N.y + N.z * N.z) + a.y ^ 2) * hC +
    (a.x ^ 2 + a.z ^ 2) * hN2 +
    (2 * a.y * a.z - a.x ^ 2 * (C.x * N.x + C.y * N.y + C.z * N.z)) * hCN

end poca_mus

/-- C18: for every normal `N` of unit `Length` and every local sample `a`,
`Dot(ToWorld(a, N), N)` equals `a.z`; so the image lies in the hemisphere
around `N` (non-negative `Dot` with `N`) exactly when `a.z ≥ 0`. -/
theorem C18_toWorld_keeps_normal_component {F : Type} [LinearOrderedField F] (sqrt : F → F)
    (hs : poca_mus.IsSqrt sqrt) (a N : Float4 F) (hN : poca_mus.Length sqrt N = 1) :
    poca_mus.Dot (poca_mus.ToWorld sqrt a N) N = a.z ∧
    (0 ≤ a.z ↔ 0 ≤ poca_mus.Dot (poca_mus.ToWorld sqrt a N) N) := by
  have h := poca_mus.Dot_ToWorld_normal hs a N hN
  exact ⟨h, by rw [h]⟩

/-- C18 at the normal `(3/5, 0, 4/5)` and the local sample `(1, 2, 3)` over the
reals. -/
theorem C18_toWorld_keeps_normal_component_witness :
    poca_mus.IsSqrt Real.sqrt ∧
    poca_mus.Length Real.sqrt (⟨3 / 5, 0, 4 / 5, 0⟩ : Float4 ℝ) = 1 ∧
    poca_mus.Dot (poca_mus.ToWorld Real.sqrt (⟨1, 2, 3, 0⟩ : Float4 ℝ) ⟨3 / 5, 0, 4 / 5, 0⟩)
      ⟨3 / 5, 0, 4 / 5, 0⟩ = 3 :=
  have hN : poca_mus.Length Real.sqrt (⟨3 / 5, 0, 4 / 5, 0⟩ : Float4 ℝ) = 1 :=
    poca_mus.real_isSqrt.eq_of_mul_self zero_le_one (by norm_num)
  ⟨poca_mus.real_isSqrt, hN,
    (C18_toWorld_keeps_normal_component Real.sqrt poca_mus.real_isSqrt ⟨1, 2, 3, 0⟩
      ⟨3 / 5, 0, 4 / 5, 0⟩ hN).1⟩

/-- C19: for every normal `N` of unit `Length` and every local sample `a`,
`Length(ToWorld(a, N))` equals `Length(a)`. -/
theorem C19_toWorld_preserves_length {F : Type} [LinearOrderedField F] (sqrt : F → F)
    (hs : poca_mus.IsSqrt sqrt) (a N : Float4 F) (hN : poca_mus.Length sqrt N = 1) :
    poca_mus.Length sqrt (poca_mus.ToWorld sqrt a N) = poca_mus.Length sqrt a := by
  simp only [poca_mus.Length]
  rw [poca_mus.ToWorld_sumsq hs a N hN]

/-- C19 at the normal `(0, 3/5, 4/5)` and the local sample `(1, 2, 3)` over the
reals. -/
theorem C19_toWorld_preserves_length_witness :
    poca_mus.IsSqrt Real.sqrt ∧
    poca_mus.Length Real.sqrt (⟨0, 3 / 5, 4 / 5, 0⟩ : Float4 ℝ) = 1 ∧
    poca_mus.Length Real.sqrt
      (poca_mus.ToWorld Real.sqrt (⟨1, 2, 3, 0⟩ : Float4 ℝ) ⟨0, 3 / 5, 4 / 5, 0⟩) =
      poca_mus.Length Real.sqrt (⟨1, 2, 3, 0⟩ : Float4 ℝ) :=
  have hN : poca_mus.Length Real.sqrt (⟨0, 3 / 5, 4 / 5, 0⟩ : Float4 ℝ) = 1 :=
    poca_mus.real_isSqrt.eq_of_mul_self zero_le_one (by norm_num)
  ⟨poca_mus.real_isSqrt, hN,
    C19_toWorld_preserves_length Real.sqrt poca_mus.real_isSqrt ⟨1, 2, 3, 0⟩
      ⟨0, 3 / 5, 4 / 5, 0⟩ hN⟩

/-! ## The output parameter of `CanRefract` on failure -/

/-- C20: for every `v`, `n`, `eta` and every initial value `r0` of the output
parameter, when `CanRefract(v, n, eta, refracted)` returns `false` the value of
`refracted` on return is `r0`. -/
theorem C20_canRefract_failure_keeps_output {F : Type} [LinearOrderedField F] (sqrt : F → F)
    (v n : Float4 F) (eta : F) (r0 : Float4 F)
    (hret : (poca_mus.CanRefract sqrt v n eta r0).1 = false) :
    (poca_mus.CanRefract sqrt v n eta r0).2 = r0 := by
  by_cases h : poca_mus.refractDiscriminant sqrt v n eta > 0
  · simp [poca_mus.CanRefract, h] at hret
  · simp only [poca_mus.CanRefract, h, if_false]

/-- C20 at `v = (1, 0, 0)`, `n = (0, 1, 0)`, `eta = 2`, where the discriminant is
`-3`, with `refracted` holding `(7, 8, 9, 10)` on entry, over the reals. -/
theorem C20_canRefract_failure_keeps_output_witness :
    (poca_mus.CanRefract Real.sqrt (⟨1, 0, 0, 0⟩ : Float4 ℝ) ⟨0, 1, 0, 0⟩ 2
      ⟨7, 8, 9, 10⟩).1 = false ∧
    (poca_mus.CanRefract Real.sqrt (⟨1, 0, 0, 0⟩ : Float4 ℝ) ⟨0, 1, 0, 0⟩ 2
      ⟨7, 8, 9, 10⟩).2 = ⟨7, 8, 9, 10⟩ :=
  have hD : poca_mus.refractDiscriminant Real.sqrt (⟨1, 0, 0, 0⟩ : Float4 ℝ) ⟨0, 1, 0, 0⟩ 2
      = -3 := by
    simp only [poca_mus.refractDiscriminant, poca_mus.GetNormalizeVec, poca_mus.Length,
      poca_mus.Dot, Float4.divScalar]
    norm_num
  have hret : (poca_mus.CanRefract Real.sqrt (⟨1, 0, 0, 0⟩ : Float4 ℝ) ⟨0, 1, 0, 0⟩ 2
      ⟨7, 8, 9, 10⟩).1 = false := by
    simp only [poca_mus.CanRefract, hD]
    norm_num
  ⟨hret, C20_canRefract_failure_keeps_output Real.sqrt ⟨1, 0, 0, 0⟩ ⟨0, 1, 0, 0⟩ 2
    ⟨7, 8, 9, 10⟩ hret⟩
